import Mathlib

/-!
Verification of the signal engine (`src/lib/services/signal-engine.ts`).

The engine is a pure function from a chronologically ordered list of daily
closing prices to a composite technical-analysis signal.  JavaScript numbers
are modelled as rationals (`ℚ`); every score-returning function in the source
returns integer literals (and integer clamps of integer sums), so the
sub-scores and the composite score are modelled as `ℤ`.

JavaScript semantics that matter to the embedding and are reproduced here:
- `prices.slice(-lookback)` (for `lookback ≥ 1`) keeps the trailing
  `min lookback prices.length` elements, i.e. `prices.drop (prices.length - lookback)`;
- `Math.max(...window)` / `Math.min(...window)` over a non-empty spread are
  `listMax` / `listMin` below (the empty case, `-Infinity` in JS, is mapped to
  `0` and is unreachable from the claims, which assume a non-empty series);
- the truthiness test `if (!support)` in `findNearestFibLevels` is true both
  for `null` and for the number `0`; this is modelled exactly by `updateS` and
  `updateR` (the `v = 0` disjunct);
- `Math.round` rounds half toward positive infinity, like Mathlib `round`.
-/

namespace SignalEngine

/-- Retracement levels record, `FibLevels` in `src/types`. -/
structure FibLevels where
  high : ℚ
  low : ℚ
  level_236 : ℚ
  level_382 : ℚ
  level_500 : ℚ
  level_618 : ℚ
  level_786 : ℚ
  deriving DecidableEq

/-- The five categorical labels of `SignalLabel` in `src/types`. -/
inductive SignalLabel where
  | strong_buy
  | buy
  | neutral
  | sell
  | strong_sell
  deriving DecidableEq

/-- Convergence/divergence result of `calculateMACD`. -/
structure MACDResult where
  macdLine : ℚ
  signalLine : ℚ
  histogram : ℚ
  deriving DecidableEq

/-- Terminal record `SignalResult` handed to the caller. -/
structure SignalResult where
  ticker : String
  date : String
  rsi_14 : ℚ
  ema_9 : ℚ
  ema_21 : ℚ
  ema_50 : ℚ
  ema_200 : ℚ
  macd_line : ℚ
  macd_signal : ℚ
  macd_histogram : ℚ
  fib_levels : FibLevels
  signal_score : ℤ
  signal_label : SignalLabel
  nearest_fib_support : Option ℚ
  nearest_fib_resistance : Option ℚ

/-- Model of `Math.max(...l)` for a non-empty list `l`. -/
def listMax : List ℚ → ℚ
  | [] => 0
  | x :: xs => xs.foldl max x

/-- Model of `Math.min(...l)` for a non-empty list `l`. -/
def listMin : List ℚ → ℚ
  | [] => 0
  | x :: xs => xs.foldl min x

/-- Source function `calculateFibLevels` in `signal-engine.ts`: high/low of the trailing
`lookback` window and the five interpolated retracement levels. -/
def calculateFibLevels (prices : List ℚ) (lookback : ℕ) : FibLevels :=
  let window := prices.drop (prices.length - lookback)
  let high := listMax window
  let low := listMin window
  let range := high - low
  { high := high
    low := low
    level_236 := high - range * 0.236
    level_382 := high - range * 0.382
    level_500 := high - range * 0.5
    level_618 := high - range * 0.618
    level_786 := high - range * 0.786 }

/-- The candidate list `levels` built inside `findNearestFibLevels`. -/
def fibCandidates (fib : FibLevels) : List ℚ :=
  [fib.low, fib.level_786, fib.level_618, fib.level_500, fib.level_382,
    fib.level_236, fib.high]

/-- One loop iteration of `findNearestFibLevels` acting on the `support`
accumulator; `if (!support || level > support) support = level`, where
`!support` is true for JS `null` (here `none`) and for the number `0`. -/
def updateS (currentPrice : ℚ) : Option ℚ → ℚ → Option ℚ
  | none, level => if level ≤ currentPrice then some level else none
  | some v, level =>
    if level ≤ currentPrice then
      if v = 0 ∨ v < level then some level else some v
    else some v

/-- One loop iteration of `findNearestFibLevels` acting on the `resistance`
accumulator; `if (!resistance || level < resistance) resistance = level`. -/
def updateR (currentPrice : ℚ) : Option ℚ → ℚ → Option ℚ
  | none, level => if currentPrice ≤ level then some level else none
  | some v, level =>
    if currentPrice ≤ level then
      if v = 0 ∨ level < v then some level else some v
    else some v

/-- One full loop iteration of `findNearestFibLevels` (each iteration updates
both accumulators). -/
def updateSR (currentPrice : ℚ) (sr : Option ℚ × Option ℚ) (level : ℚ) :
    Option ℚ × Option ℚ :=
  (updateS currentPrice sr.1 level, updateR currentPrice sr.2 level)

/-- Source function `findNearestFibLevels` in `signal-engine.ts`. -/
def findNearestFibLevels (currentPrice : ℚ) (fib : FibLevels) :
    Option ℚ × Option ℚ :=
  (fibCandidates fib).foldl (updateSR currentPrice) (none, none)

/-- Modelled from the spec (§4.5), for comparison with the source function:
the support is "the maximum candidate that is ≤ currentPrice (null if none
qualify)". -/
def specNearestSupport (currentPrice : ℚ) (fib : FibLevels) : Option ℚ :=
  ((fibCandidates fib).filter (fun l => decide (l ≤ currentPrice))).max?

/-- Modelled from the spec (§4.5), for comparison with the source function:
the resistance is "the minimum candidate that is ≥ currentPrice (null if none
qualify)". -/
def specNearestResistance (currentPrice : ℚ) (fib : FibLevels) : Option ℚ :=
  ((fibCandidates fib).filter (fun l => decide (currentPrice ≤ l))).min?

/-- Source function `scoreFibPosition` in `signal-engine.ts`; every branch returns an integer
literal, so the result is typed `ℤ`. -/
def scoreFibPosition (price : ℚ) (fib : FibLevels) : ℤ :=
  let range := fib.high - fib.low
  if range = 0 then 0
  else
    let p := (price - fib.low) / range
    if 0.6 ≤ p ∧ p ≤ 0.65 then 20
    else if 0.75 ≤ p ∧ p ≤ 0.8 then 15
    else if 0.35 ≤ p ∧ p ≤ 0.4 then 10
    else if 1 < p then 25
    else if p < 0 then -25
    else if 0.764 < p then 5
    else if p < 0.3 then -15
    else 0

/-- Source function `scoreRSI` in `signal-engine.ts`. -/
def scoreRSI (rsi : ℚ) : ℤ :=
  if rsi ≤ 30 then 20
  else if rsi ≤ 40 then 10
  else if 70 ≤ rsi then -20
  else if 60 ≤ rsi then -10
  else 0

/-- The running change accumulation in the first loop of `calculateRSI`:
`change > 0` adds to the gains, otherwise `|change|` adds to the losses. -/
def accumGL (gl : ℚ × ℚ) (change : ℚ) : ℚ × ℚ :=
  if 0 < change then (gl.1 + change, gl.2) else (gl.1, gl.2 + |change|)

/-- One step of Wilder smoothing in the second loop of `calculateRSI`. -/
def wilderStep (period : ℕ) (avg : ℚ × ℚ) (change : ℚ) : ℚ × ℚ :=
  ((avg.1 * ((period : ℚ) - 1) + (if 0 < change then change else 0)) / (period : ℚ),
   (avg.2 * ((period : ℚ) - 1) + (if change < 0 then |change| else 0)) / (period : ℚ))

/-- The list of consecutive price deltas `prices[i] - prices[i-1]`. -/
def priceChanges (prices : List ℚ) : List ℚ :=
  List.zipWith (fun prev next => next - prev) prices prices.tail

/-- The final `(avgGain, avgLoss)` pair computed by `calculateRSI` when the
series has at least `period + 1` elements: initial averages over the first
`period` deltas, then Wilder smoothing over the remaining deltas. -/
def wilderAvgs (prices : List ℚ) (period : ℕ) : ℚ × ℚ :=
  let changes := priceChanges prices
  let init := (changes.take period).foldl accumGL (0, 0)
  (changes.drop period).foldl (wilderStep period)
    (init.1 / (period : ℚ), init.2 / (period : ℚ))

/-- Source function `calculateRSI` in `signal-engine.ts`. -/
def calculateRSI (prices : List ℚ) (period : ℕ) : ℚ :=
  if prices.length < period + 1 then 50
  else
    let avg := wilderAvgs prices period
    if avg.2 = 0 then 100
    else 100 - 100 / (1 + avg.1 / avg.2)

/-- One step of the EMA recurrence:
`(price - previous) * multiplier + previous`. -/
def emaStep (multiplier prev price : ℚ) : ℚ := (price - prev) * multiplier + prev

/-- The second loop of `calculateEMA`: successive EMA values from a previous
value over the remaining prices. -/
def emaFrom (multiplier prev : ℚ) : List ℚ → List ℚ
  | [] => []
  | p :: rest => emaStep multiplier prev p :: emaFrom multiplier (emaStep multiplier prev p) rest

/-- Source function `calculateEMA` in `signal-engine.ts`: empty when the series is shorter
than the period, otherwise the SMA seed followed by the EMA recurrence. -/
def calculateEMA (prices : List ℚ) (period : ℕ) : List ℚ :=
  if prices.length < period then []
  else
    (prices.take period).sum / (period : ℚ) ::
      emaFrom (2 / ((period : ℚ) + 1)) ((prices.take period).sum / (period : ℚ))
        (prices.drop period)

/-- Source function `getLatestEMA` in `signal-engine.ts`: last EMA value, falling back to the
last closing price when the EMA sequence is empty. -/
def getLatestEMA (prices : List ℚ) (period : ℕ) : ℚ :=
  match (calculateEMA prices period).getLast? with
  | some v => v
  | none => prices.getLast?.getD 0

/-- Source function `scoreEMAAlignment` in `signal-engine.ts` (`price > ema9` is written
`ema9 < price`, and so on). -/
def scoreEMAAlignment (price ema9 ema21 ema50 ema200 : ℚ) : ℤ :=
  let above : ℤ :=
    (if ema9 < price then 5 else 0) + (if ema21 < price then 4 else 0) +
      (if ema50 < price then 4 else 0) + (if ema200 < price then 3 else 0)
  let align : ℤ :=
    (if ema21 < ema9 ∧ ema50 < ema21 ∧ ema200 < ema50 then 4 else 0) +
      (if ema9 < ema21 ∧ ema21 < ema50 ∧ ema50 < ema200 then -4 else 0)
  let below : ℤ :=
    (if price < ema9 then -5 else 0) + (if price < ema21 then -4 else 0) +
      (if price < ema50 then -4 else 0) + (if price < ema200 then -3 else 0)
  max (-20) (min 20 (above + align + below))

/-- JS truthiness of an optional number: `null` and `0` are falsy. -/
def truthy : Option ℚ → Bool
  | none => false
  | some v => decide (v ≠ 0)

/-- Source function `scoreSRProximity` in `signal-engine.ts`, including the JS truthiness
guards `if (!fibSupport && !fibResistance)` and `if (fibSupport)`. -/
def scoreSRProximity (price : ℚ) (fibSupport fibResistance : Option ℚ) : ℤ :=
  if truthy fibSupport = false ∧ truthy fibResistance = false then 0
  else
    let supportPart : ℤ :=
      if truthy fibSupport = true then
        let s := fibSupport.getD 0
        if (price - s) / price ≤ 0.02 then 12
        else if (price - s) / price ≤ 0.05 then 6
        else 0
      else 0
    let resistancePart : ℤ :=
      if truthy fibResistance = true then
        let r := fibResistance.getD 0
        if (r - price) / price ≤ 0.02 then -12
        else if (r - price) / price ≤ 0.05 then -6
        else 0
      else 0
    max (-15) (min 15 (supportPart + resistancePart))

/-- Source function `calculateMACD` in `signal-engine.ts`; the offset alignment
`ema12[i + offset] - ema26[i]` is the elementwise difference of
`ema12.drop offset` and `ema26`. -/
def calculateMACD (prices : List ℚ) : MACDResult :=
  let ema12 := calculateEMA prices 12
  let ema26 := calculateEMA prices 26
  if ema12 = [] ∨ ema26 = [] then ⟨0, 0, 0⟩
  else
    let offset := ema12.length - ema26.length
    let macdValues := List.zipWith (fun a b => a - b) (ema12.drop offset) ema26
    let signalEMA := calculateEMA macdValues 9
    let macdLine := macdValues.getLast?.getD 0
    let signalLine := signalEMA.getLast?.getD 0
    ⟨macdLine, signalLine, macdLine - signalLine⟩

/-- Source function `scoreMACDMomentum` in `signal-engine.ts`. -/
def scoreMACDMomentum (macdLine signalLine histogram : ℚ) : ℤ :=
  let cross : ℤ := if signalLine < macdLine then 7 else -7
  let histo : ℤ := if 0 < histogram then 5 else -5
  let zone : ℤ :=
    if 0 < macdLine ∧ 0 < signalLine then 3
    else if macdLine < 0 ∧ signalLine < 0 then -3
    else 0
  max (-15) (min 15 (cross + histo + zone))

/-- Source function `labelFromScore` in `signal-engine.ts`: first-match threshold order. -/
def labelFromScore (score : ℤ) : SignalLabel :=
  if 50 ≤ score then SignalLabel.strong_buy
  else if 20 ≤ score then SignalLabel.buy
  else if score ≤ -50 then SignalLabel.strong_sell
  else if score ≤ -20 then SignalLabel.sell
  else SignalLabel.neutral

/-- Model of `Math.round(x * 100) / 100` (2 decimal places). -/
def round2 (x : ℚ) : ℚ := ((round (x * 100) : ℤ) : ℚ) / 100

/-- Model of `Math.round(x * 10000) / 10000` (4 decimal places). -/
def round4 (x : ℚ) : ℚ := ((round (x * 10000) : ℤ) : ℚ) / 10000

/-- Model of `closePrices[closePrices.length - 1]` for a non-empty series. -/
def currentPriceOf (prices : List ℚ) : ℚ := prices.getLast?.getD 0

/-- The `fib` binding of `generateSignals`. -/
def fibOf (prices : List ℚ) : FibLevels := calculateFibLevels prices 60

/-- The `{ support, resistance }` binding of `generateSignals`. -/
def srOf (prices : List ℚ) : Option ℚ × Option ℚ :=
  findNearestFibLevels (currentPriceOf prices) (fibOf prices)

/-- The `rsi` binding of `generateSignals`. -/
def rsiOf (prices : List ℚ) : ℚ := calculateRSI prices 14

/-- The `macd` binding of `generateSignals`. -/
def macdOf (prices : List ℚ) : MACDResult := calculateMACD prices

/-- The `fibScore` binding of `generateSignals`. -/
def fibScoreOf (prices : List ℚ) : ℤ :=
  scoreFibPosition (currentPriceOf prices) (fibOf prices)

/-- The `rsiScore` binding of `generateSignals`. -/
def rsiScoreOf (prices : List ℚ) : ℤ := scoreRSI (rsiOf prices)

/-- The `emaScore` binding of `generateSignals`. -/
def emaScoreOf (prices : List ℚ) : ℤ :=
  scoreEMAAlignment (currentPriceOf prices) (getLatestEMA prices 9)
    (getLatestEMA prices 21) (getLatestEMA prices 50) (getLatestEMA prices 200)

/-- The `srScore` binding of `generateSignals`. -/
def srScoreOf (prices : List ℚ) : ℤ :=
  scoreSRProximity (currentPriceOf prices) (srOf prices).1 (srOf prices).2

/-- The `macdScore` binding of `generateSignals`. -/
def macdScoreOf (prices : List ℚ) : ℤ :=
  scoreMACDMomentum (macdOf prices).macdLine (macdOf prices).signalLine
    (macdOf prices).histogram

/-- The `totalScore` binding of `generateSignals`. -/
def totalScoreOf (prices : List ℚ) : ℤ :=
  fibScoreOf prices + rsiScoreOf prices + emaScoreOf prices + srScoreOf prices +
    macdScoreOf prices

/-- The `clampedScore` binding of `generateSignals`:
`Math.max(-100, Math.min(100, totalScore))`. -/
def clampedScoreOf (prices : List ℚ) : ℤ :=
  max (-100) (min 100 (totalScoreOf prices))

/-- Source function `generateSignals` in `signal-engine.ts`, the main entry point. -/
def generateSignals (ticker : String) (closePrices : List ℚ) (date : String) :
    SignalResult :=
  { ticker := ticker
    date := date
    rsi_14 := round2 (rsiOf closePrices)
    ema_9 := round2 (getLatestEMA closePrices 9)
    ema_21 := round2 (getLatestEMA closePrices 21)
    ema_50 := round2 (getLatestEMA closePrices 50)
    ema_200 := round2 (getLatestEMA closePrices 200)
    macd_line := round4 (macdOf closePrices).macdLine
    macd_signal := round4 (macdOf closePrices).signalLine
    macd_histogram := round4 (macdOf closePrices).histogram
    fib_levels := fibOf closePrices
    signal_score := clampedScoreOf closePrices
    signal_label := labelFromScore (clampedScoreOf closePrices)
    nearest_fib_support := (srOf closePrices).1
    nearest_fib_resistance := (srOf closePrices).2 }

end SignalEngine

namespace SignalEngine

/-! ### Helper lemmas about list maxima and minima -/

theorem le_foldl_max (xs : List ℚ) (a : ℚ) : a ≤ xs.foldl max a := by
  induction xs generalizing a with
  | nil => exact le_rfl
  | cons x xs ih => exact le_trans (le_max_left a x) (ih (max a x))

theorem mem_le_foldl_max (xs : List ℚ) (a x : ℚ) (hx : x ∈ xs) :
    x ≤ xs.foldl max a := by
  induction xs generalizing a with
  | nil => cases hx
  | cons y ys ih =>
    rcases List.mem_cons.mp hx with rfl | hmem
    · exact le_trans (le_max_right a x) (le_foldl_max ys (max a x))
    · exact ih (max a y) hmem

theorem foldl_max_mem (xs : List ℚ) (a : ℚ) : xs.foldl max a ∈ a :: xs := by
  induction xs generalizing a with
  | nil => exact List.mem_singleton.mpr rfl
  | cons x xs ih =>
    have h := ih (max a x)
    rcases List.mem_cons.mp h with h1 | h2
    · rcases max_choice a x with hc | hc <;> rw [List.foldl_cons, h1, hc]
      · exact List.mem_cons_self _ _
      · exact List.mem_cons_of_mem _ (List.mem_cons_self _ _)
    · exact List.mem_cons_of_mem _ (List.mem_cons_of_mem _ h2)

theorem foldl_min_le (xs : List ℚ) (a : ℚ) : xs.foldl min a ≤ a := by
  induction xs generalizing a with
  | nil => exact le_rfl
  | cons x xs ih => exact le_trans (ih (min a x)) (min_le_left a x)

theorem foldl_min_le_mem (xs : List ℚ) (a x : ℚ) (hx : x ∈ xs) :
    xs.foldl min a ≤ x := by
  induction xs generalizing a with
  | nil => cases hx
  | cons y ys ih =>
    rcases List.mem_cons.mp hx with rfl | hmem
    · exact le_trans (foldl_min_le ys (min a x)) (min_le_right a x)
    · exact ih (min a y) hmem

theorem foldl_min_mem (xs : List ℚ) (a : ℚ) : xs.foldl min a ∈ a :: xs := by
  induction xs generalizing a with
  | nil => exact List.mem_singleton.mpr rfl
  | cons x xs ih =>
    have h := ih (min a x)
    rcases List.mem_cons.mp h with h1 | h2
    · rcases min_choice a x with hc | hc <;> rw [List.foldl_cons, h1, hc]
      · exact List.mem_cons_self _ _
      · exact List.mem_cons_of_mem _ (List.mem_cons_self _ _)
    · exact List.mem_cons_of_mem _ (List.mem_cons_of_mem _ h2)

theorem le_listMax (l : List ℚ) (x : ℚ) (hx : x ∈ l) : x ≤ listMax l := by
  cases l with
  | nil => cases hx
  | cons y ys =>
    rcases List.mem_cons.mp hx with rfl | hmem
    · exact le_foldl_max ys x
    · exact mem_le_foldl_max ys y x hmem

theorem listMax_mem (l : List ℚ) (h : l ≠ []) : listMax l ∈ l := by
  cases l with
  | nil => exact absurd rfl h
  | cons y ys => exact foldl_max_mem ys y

theorem listMin_le (l : List ℚ) (x : ℚ) (hx : x ∈ l) : listMin l ≤ x := by
  cases l with
  | nil => cases hx
  | cons y ys =>
    rcases List.mem_cons.mp hx with rfl | hmem
    · exact foldl_min_le ys x
    · exact foldl_min_le_mem ys y x hmem

theorem listMin_mem (l : List ℚ) (h : l ≠ []) : listMin l ∈ l := by
  cases l with
  | nil => exact absurd rfl h
  | cons y ys => exact foldl_min_mem ys y

/-! ### The last element of a trailing window -/

theorem getLast?_drop (l : List ℚ) (k : ℕ) (hk : k < l.length) :
    (l.drop k).getLast? = l.getLast? := by
  induction l generalizing k with
  | nil => simp at hk
  | cons x xs ih =>
    cases k with
    | zero => rfl
    | succ j =>
      have hj : j < xs.length := by simpa using hk
      have hxs : xs ≠ [] := by
        intro h
        rw [h] at hj
        simp at hj
      rw [List.drop_succ_cons, ih j hj]
      cases xs with
      | nil => exact absurd rfl hxs
      | cons y ys => rw [List.getLast?_cons_cons]

theorem getLast?_getD_mem (l : List ℚ) (h : l ≠ []) : l.getLast?.getD 0 ∈ l := by
  rw [List.getLast?_eq_getLast l h]
  exact List.getLast_mem h

end SignalEngine

namespace SignalEngine

/-! ### Characterising the nearest-level fold -/

theorem foldl_updateSR_split (cp : ℚ) (levels : List ℚ) (s r : Option ℚ) :
    levels.foldl (updateSR cp) (s, r) =
      (levels.foldl (updateS cp) s, levels.foldl (updateR cp) r) := by
  induction levels generalizing s r with
  | nil => rfl
  | cons x xs ih => exact ih (updateS cp s x) (updateR cp r x)

theorem foldl_updateS_some (cp : ℚ) (levels : List ℚ) (v : ℚ) (hv : v ≠ 0)
    (h : ∀ l ∈ levels, l ≠ 0) :
    levels.foldl (updateS cp) (some v) =
      some ((levels.filter (fun l => decide (l ≤ cp))).foldl max v) := by
  induction levels generalizing v with
  | nil => rfl
  | cons x xs ih =>
    have hx : x ≠ 0 := h x (List.mem_cons_self x xs)
    have hxs : ∀ l ∈ xs, l ≠ 0 := fun l hl => h l (List.mem_cons_of_mem x hl)
    by_cases hle : x ≤ cp
    · have hstep : updateS cp (some v) x = some (max v x) := by
        rw [updateS, if_pos hle]
        by_cases hlt : v < x
        · rw [if_pos (Or.inr hlt), max_eq_right (le_of_lt hlt)]
        · have hno : ¬(v = 0 ∨ v < x) := by
            rintro (h0 | hl)
            · exact hv h0
            · exact hlt hl
          rw [if_neg hno, max_eq_left (le_of_not_lt hlt)]
      have hmax : max v x ≠ 0 := by
        rcases max_choice v x with hc | hc <;> rw [hc]
        · exact hv
        · exact hx
      rw [List.foldl_cons, hstep, ih (max v x) hmax hxs]
      have hfx : (List.filter (fun l => decide (l ≤ cp)) (x :: xs)) =
          x :: List.filter (fun l => decide (l ≤ cp)) xs := by
        simp [List.filter_cons, hle]
      rw [hfx, List.foldl_cons]
    · have hstep : updateS cp (some v) x = some v := by
        rw [updateS, if_neg hle]
      have hfx : (List.filter (fun l => decide (l ≤ cp)) (x :: xs)) =
          List.filter (fun l => decide (l ≤ cp)) xs := by
        simp [List.filter_cons, hle]
      rw [List.foldl_cons, hstep, ih v hv hxs, hfx]

end SignalEngine

namespace SignalEngine

theorem foldl_updateS_none (cp : ℚ) (levels : List ℚ)
    (h : ∀ l ∈ levels, l ≠ 0) :
    levels.foldl (updateS cp) none =
      (levels.filter (fun l => decide (l ≤ cp))).max? := by
  induction levels with
  | nil => rfl
  | cons x xs ih =>
    have hx : x ≠ 0 := h x (List.mem_cons_self x xs)
    have hxs : ∀ l ∈ xs, l ≠ 0 := fun l hl => h l (List.mem_cons_of_mem x hl)
    by_cases hle : x ≤ cp
    · have hstep : updateS cp none x = some x := by
        rw [updateS, if_pos hle]
      have hfx : (List.filter (fun l => decide (l ≤ cp)) (x :: xs)) =
          x :: List.filter (fun l => decide (l ≤ cp)) xs := by
        simp [List.filter_cons, hle]
      rw [List.foldl_cons, hstep, foldl_updateS_some cp xs x hx hxs, hfx]
      rfl
    · have hstep : updateS cp none x = none := by
        rw [updateS, if_neg hle]
      have hfx : (List.filter (fun l => decide (l ≤ cp)) (x :: xs)) =
          List.filter (fun l => decide (l ≤ cp)) xs := by
        simp [List.filter_cons, hle]
      rw [List.foldl_cons, hstep, ih hxs, hfx]

theorem foldl_updateR_some (cp : ℚ) (levels : List ℚ) (v : ℚ) (hv : v ≠ 0)
    (h : ∀ l ∈ levels, l ≠ 0) :
    levels.foldl (updateR cp) (some v) =
      some ((levels.filter (fun l => decide (cp ≤ l))).foldl min v) := by
  induction levels generalizing v with
  | nil => rfl
  | cons x xs ih =>
    have hx : x ≠ 0 := h x (List.mem_cons_self x xs)
    have hxs : ∀ l ∈ xs, l ≠ 0 := fun l hl => h l (List.mem_cons_of_mem x hl)
    by_cases hle : cp ≤ x
    · have hstep : updateR cp (some v) x = some (min v x) := by
        rw [updateR, if_pos hle]
        by_cases hlt : x < v
        · rw [if_pos (Or.inr hlt), min_eq_right (le_of_lt hlt)]
        · have hno : ¬(v = 0 ∨ x < v) := by
            rintro (h0 | hl)
            · exact hv h0
            · exact hlt hl
          rw [if_neg hno, min_eq_left (le_of_not_lt hlt)]
      have hmin : min v x ≠ 0 := by
        rcases min_choice v x with hc | hc <;> rw [hc]
        · exact hv
        · exact hx
      rw [List.foldl_cons, hstep, ih (min v x) hmin hxs]
      have hfx : (List.filter (fun l => decide (cp ≤ l)) (x :: xs)) =
          x :: List.filter (fun l => decide (cp ≤ l)) xs := by
        simp [List.filter_cons, hle]
      rw [hfx, List.foldl_cons]
    · have hstep : updateR cp (some v) x = some v := by
        rw [updateR, if_neg hle]
      have hfx : (List.filter (fun l => decide (cp ≤ l)) (x :: xs)) =
          List.filter (fun l => decide (cp ≤ l)) xs := by
        simp [List.filter_cons, hle]
      rw [List.foldl_cons, hstep, ih v hv hxs, hfx]

theorem foldl_updateR_none (cp : ℚ) (levels : List ℚ)
    (h : ∀ l ∈ levels, l ≠ 0) :
    levels.foldl (updateR cp) none =
      (levels.filter (fun l => decide (cp ≤ l))).min? := by
  induction levels with
  | nil => rfl
  | cons x xs ih =>
    have hx : x ≠ 0 := h x (List.mem_cons_self x xs)
    have hxs : ∀ l ∈ xs, l ≠ 0 := fun l hl => h l (List.mem_cons_of_mem x hl)
    by_cases hle : cp ≤ x
    · have hstep : updateR cp none x = some x := by
        rw [updateR, if_pos hle]
      have hfx : (List.filter (fun l => decide (cp ≤ l)) (x :: xs)) =
          x :: List.filter (fun l => decide (cp ≤ l)) xs := by
        simp [List.filter_cons, hle]
      rw [List.foldl_cons, hstep, foldl_updateR_some cp xs x hx hxs, hfx]
      rfl
    · have hstep : updateR cp none x = none := by
        rw [updateR, if_neg hle]
      have hfx : (List.filter (fun l => decide (cp ≤ l)) (x :: xs)) =
          List.filter (fun l => decide (cp ≤ l)) xs := by
        simp [List.filter_cons, hle]
      rw [List.foldl_cons, hstep, ih hxs, hfx]

theorem findNearestFibLevels_eq_spec (cp : ℚ) (fib : FibLevels)
    (h : ∀ l ∈ fibCandidates fib, l ≠ 0) :
    findNearestFibLevels cp fib =
      (specNearestSupport cp fib, specNearestResistance cp fib) := by
  unfold findNearestFibLevels specNearestSupport specNearestResistance
  rw [foldl_updateSR_split, foldl_updateS_none cp _ h, foldl_updateR_none cp _ h]

end SignalEngine

namespace SignalEngine

/-! ### Retracement levels: ordering -/

theorem calculateFibLevels_high (prices : List ℚ) (lookback : ℕ) :
    (calculateFibLevels prices lookback).high =
      listMax (prices.drop (prices.length - lookback)) := rfl

theorem calculateFibLevels_low (prices : List ℚ) (lookback : ℕ) :
    (calculateFibLevels prices lookback).low =
      listMin (prices.drop (prices.length - lookback)) := rfl

theorem window_ne_nil (prices : List ℚ) (lookback : ℕ) (h : prices ≠ [])
    (hl : 1 ≤ lookback) : prices.drop (prices.length - lookback) ≠ [] := by
  have hn : 0 < prices.length := List.length_pos.mpr h
  have hlen : (prices.drop (prices.length - lookback)).length =
      prices.length - (prices.length - lookback) := List.length_drop _ _
  have hpos : 0 < (prices.drop (prices.length - lookback)).length := by
    rw [hlen]
    omega
  exact List.length_pos.mp hpos

theorem low_le_high (prices : List ℚ) (lookback : ℕ) (h : prices ≠ [])
    (hl : 1 ≤ lookback) :
    (calculateFibLevels prices lookback).low ≤
      (calculateFibLevels prices lookback).high := by
  have hw := window_ne_nil prices lookback h hl
  rw [calculateFibLevels_high, calculateFibLevels_low]
  exact listMin_le _ _ (listMax_mem _ hw)

/-- C3.  For every non-empty window of prices, the record returned by
`calculateFibLevels` satisfies
`high ≥ level_236 ≥ level_382 ≥ level_500 ≥ level_618 ≥ level_786 ≥ low`,
and when the window is flat (`range = high - low = 0`) all seven values are
equal. -/
theorem fib_levels_ordered (prices : List ℚ) (lookback : ℕ) (h : prices ≠ [])
    (hl : 1 ≤ lookback) :
    ((calculateFibLevels prices lookback).level_236 ≤ (calculateFibLevels prices lookback).high ∧
     (calculateFibLevels prices lookback).level_382 ≤ (calculateFibLevels prices lookback).level_236 ∧
     (calculateFibLevels prices lookback).level_500 ≤ (calculateFibLevels prices lookback).level_382 ∧
     (calculateFibLevels prices lookback).level_618 ≤ (calculateFibLevels prices lookback).level_500 ∧
     (calculateFibLevels prices lookback).level_786 ≤ (calculateFibLevels prices lookback).level_618 ∧
     (calculateFibLevels prices lookback).low ≤ (calculateFibLevels prices lookback).level_786) ∧
    ((calculateFibLevels prices lookback).high - (calculateFibLevels prices lookback).low = 0 →
      ((calculateFibLevels prices lookback).level_236 = (calculateFibLevels prices lookback).high ∧
       (calculateFibLevels prices lookback).level_382 = (calculateFibLevels prices lookback).high ∧
       (calculateFibLevels prices lookback).level_500 = (calculateFibLevels prices lookback).high ∧
       (calculateFibLevels prices lookback).level_618 = (calculateFibLevels prices lookback).high ∧
       (calculateFibLevels prices lookback).level_786 = (calculateFibLevels prices lookback).high ∧
       (calculateFibLevels prices lookback).low = (calculateFibLevels prices lookback).high)) := by
  have hlh := low_le_high prices lookback h hl
  set hi := (calculateFibLevels prices lookback).high with hhi
  set lo := (calculateFibLevels prices lookback).low with hlo
  have h236 : (calculateFibLevels prices lookback).level_236 = hi - (hi - lo) * 0.236 := rfl
  have h382 : (calculateFibLevels prices lookback).level_382 = hi - (hi - lo) * 0.382 := rfl
  have h500 : (calculateFibLevels prices lookback).level_500 = hi - (hi - lo) * 0.5 := rfl
  have h618 : (calculateFibLevels prices lookback).level_618 = hi - (hi - lo) * 0.618 := rfl
  have h786 : (calculateFibLevels prices lookback).level_786 = hi - (hi - lo) * 0.786 := rfl
  have hr : (0:ℚ) ≤ hi - lo := sub_nonneg.mpr hlh
  constructor
  · refine ⟨?_, ?_, ?_, ?_, ?_, ?_⟩
    · rw [h236]
      nlinarith [mul_nonneg hr (show (0:ℚ) ≤ 0.236 by norm_num)]
    · rw [h236, h382]
      nlinarith [mul_le_mul_of_nonneg_left (show (0.236:ℚ) ≤ 0.382 by norm_num) hr]
    · rw [h382, h500]
      nlinarith [mul_le_mul_of_nonneg_left (show (0.382:ℚ) ≤ 0.5 by norm_num) hr]
    · rw [h500, h618]
      nlinarith [mul_le_mul_of_nonneg_left (show (0.5:ℚ) ≤ 0.618 by norm_num) hr]
    · rw [h618, h786]
      nlinarith [mul_le_mul_of_nonneg_left (show (0.618:ℚ) ≤ 0.786 by norm_num) hr]
    · rw [h786]
      nlinarith [mul_le_of_le_one_right hr (show (0.786:ℚ) ≤ 1 by norm_num)]
  · intro hflat
    rw [h236, h382, h500, h618, h786, hflat]
    norm_num
    linarith

/-- Witness for C3 at the concrete series `[1, 2]` with the default
lookback 60. -/
theorem fib_levels_ordered_witness :
    (([1, 2] : List ℚ) ≠ [] ∧ 1 ≤ 60) ∧
      (calculateFibLevels [1, 2] 60).level_236 ≤ (calculateFibLevels [1, 2] 60).high := by
  refine ⟨⟨by decide, by decide⟩, ?_⟩
  exact (fib_levels_ordered [1, 2] 60 (by decide) (by decide)).1.1

end SignalEngine

namespace SignalEngine

/-! ### EMA: length and seed/recurrence -/

theorem emaFrom_length (multiplier prev : ℚ) (l : List ℚ) :
    (emaFrom multiplier prev l).length = l.length := by
  induction l generalizing prev with
  | nil => rfl
  | cons p rest ih =>
    rw [emaFrom]
    simp [ih]

/-- C7.  For every price series of length `n` and every period `p ≥ 1`,
`calculateEMA` returns a sequence of length `max 0 (n - p + 1)` (as integers),
and it returns the empty sequence exactly when `n < p`. -/
theorem calculateEMA_length (prices : List ℚ) (period : ℕ) (hp : 1 ≤ period) :
    ((calculateEMA prices period).length : ℤ) =
        max 0 ((prices.length : ℤ) - (period : ℤ) + 1) ∧
      (calculateEMA prices period = [] ↔ prices.length < period) := by
  unfold calculateEMA
  by_cases hlt : prices.length < period
  · rw [if_pos hlt]
    constructor
    · simp only [List.length_nil, Nat.cast_zero]
      omega
    · simp [hlt]
  · rw [if_neg hlt]
    constructor
    · simp only [List.length_cons, emaFrom_length, List.length_drop]
      push_cast
      omega
    · simp [hlt]

/-- Witness for C7 at the concrete series `[1, 2, 3]` with period 2. -/
theorem calculateEMA_length_witness :
    1 ≤ 2 ∧ ((calculateEMA [1, 2, 3] 2).length : ℤ) =
      max 0 ((([1, 2, 3] : List ℚ).length : ℤ) - (2 : ℤ) + 1) :=
  ⟨by decide, (calculateEMA_length [1, 2, 3] 2 (by decide)).1⟩

/-- C8.  `calculateEMA` seeds its first value with the simple arithmetic mean
of the first `period` prices, each subsequent value follows the recurrence
`previous + (price - previous) * (2 / (period + 1))`, and for period 3 on
`[1, 2, 3, 4, 5]` the result is exactly `[2, 3, 4]`. -/
theorem calculateEMA_seed_recurrence (prices : List ℚ) (period : ℕ)
    (hp : 1 ≤ period) (hlen : period ≤ prices.length) :
    (calculateEMA prices period).head? =
        some ((prices.take period).sum / (period : ℚ)) ∧
      (∀ multiplier prev price : ℚ,
        emaStep multiplier prev price = prev + (price - prev) * multiplier) ∧
      calculateEMA [1, 2, 3, 4, 5] 3 = [2, 3, 4] := by
  refine ⟨?_, ?_, ?_⟩
  · unfold calculateEMA
    rw [if_neg (by omega)]
    rfl
  · intro multiplier prev price
    unfold emaStep
    ring
  · norm_num [calculateEMA, emaFrom, emaStep]

/-- Witness for C8: period 3 on `[1, 2, 3, 4, 5]` seeds with mean 2 and
returns `[2, 3, 4]`. -/
theorem calculateEMA_seed_recurrence_witness :
    (1 ≤ 3 ∧ 3 ≤ ([1, 2, 3, 4, 5] : List ℚ).length) ∧
      calculateEMA [1, 2, 3, 4, 5] 3 = [2, 3, 4] :=
  ⟨⟨by decide, by decide⟩,
    (calculateEMA_seed_recurrence [1, 2, 3, 4, 5] 3 (by decide) (by decide)).2.2⟩

end SignalEngine

namespace SignalEngine

/-! ### RSI: non-negative Wilder averages and the `[0, 100]` bound -/

theorem foldl_accumGL_nonneg (cs : List ℚ) (g l : ℚ) (hg : 0 ≤ g) (hl : 0 ≤ l) :
    0 ≤ (cs.foldl accumGL (g, l)).1 ∧ 0 ≤ (cs.foldl accumGL (g, l)).2 := by
  induction cs generalizing g l with
  | nil => exact ⟨hg, hl⟩
  | cons c cs ih =>
    rw [List.foldl_cons]
    unfold accumGL
    by_cases hc : 0 < c
    · rw [if_pos hc]
      exact ih (g + c) l (by linarith) hl
    · rw [if_neg hc]
      exact ih g (l + |c|) hg (by positivity)

theorem foldl_wilderStep_nonneg (cs : List ℚ) (period : ℕ) (hp : 1 ≤ period)
    (g l : ℚ) (hg : 0 ≤ g) (hl : 0 ≤ l) :
    0 ≤ (cs.foldl (wilderStep period) (g, l)).1 ∧
      0 ≤ (cs.foldl (wilderStep period) (g, l)).2 := by
  induction cs generalizing g l with
  | nil => exact ⟨hg, hl⟩
  | cons c cs ih =>
    rw [List.foldl_cons]
    have hp1 : (0:ℚ) ≤ (period : ℚ) - 1 := by
      have : (1:ℚ) ≤ (period : ℚ) := by exact_mod_cast hp
      linarith
    have hpq : (0:ℚ) ≤ (period : ℚ) := by positivity
    unfold wilderStep
    refine ih _ _ ?_ ?_
    · apply div_nonneg _ hpq
      have hinc : (0:ℚ) ≤ if 0 < c then c else 0 := by
        split <;> [linarith; exact le_rfl]
      exact add_nonneg (mul_nonneg hg hp1) hinc
    · apply div_nonneg _ hpq
      have hinc : (0:ℚ) ≤ if c < 0 then |c| else 0 := by
        split <;> [positivity; exact le_rfl]
      exact add_nonneg (mul_nonneg hl hp1) hinc

theorem wilderAvgs_nonneg (prices : List ℚ) (period : ℕ) (hp : 1 ≤ period) :
    0 ≤ (wilderAvgs prices period).1 ∧ 0 ≤ (wilderAvgs prices period).2 := by
  unfold wilderAvgs
  have hinit := foldl_accumGL_nonneg ((priceChanges prices).take period) 0 0
    le_rfl le_rfl
  have hpq : (0:ℚ) ≤ (period : ℚ) := by positivity
  exact foldl_wilderStep_nonneg _ period hp _ _
    (div_nonneg hinit.1 hpq) (div_nonneg hinit.2 hpq)

/-- C2.  For every price series and every period ≥ 1, `calculateRSI` returns a
value in `[0, 100]`; with fewer than `period + 1` elements it returns exactly
50; with enough data it returns 100 when the final smoothed average loss is 0
and `100 - 100 / (1 + avgGain / avgLoss)` otherwise, where both Wilder
averages are non-negative. -/
theorem calculateRSI_bounds (prices : List ℚ) (period : ℕ) (hp : 1 ≤ period) :
    (0 ≤ calculateRSI prices period ∧ calculateRSI prices period ≤ 100) ∧
      (prices.length < period + 1 → calculateRSI prices period = 50) ∧
      (¬ prices.length < period + 1 →
        0 ≤ (wilderAvgs prices period).1 ∧ 0 ≤ (wilderAvgs prices period).2 ∧
        ((wilderAvgs prices period).2 = 0 → calculateRSI prices period = 100) ∧
        ((wilderAvgs prices period).2 ≠ 0 →
          calculateRSI prices period =
            100 - 100 / (1 + (wilderAvgs prices period).1 / (wilderAvgs prices period).2))) := by
  have havg := wilderAvgs_nonneg prices period hp
  have hbounds : 0 ≤ calculateRSI prices period ∧ calculateRSI prices period ≤ 100 := by
    unfold calculateRSI
    by_cases hlt : prices.length < period + 1
    · rw [if_pos hlt]
      norm_num
    · rw [if_neg hlt]
      by_cases hz : (wilderAvgs prices period).2 = 0
      · rw [if_pos hz]
        norm_num
      · rw [if_neg hz]
        have hlpos : 0 < (wilderAvgs prices period).2 := lt_of_le_of_ne havg.2 (Ne.symm hz)
        have hrs : 0 ≤ (wilderAvgs prices period).1 / (wilderAvgs prices period).2 :=
          div_nonneg havg.1 (le_of_lt hlpos)
        have hfrac_pos : 0 < 100 / (1 + (wilderAvgs prices period).1 / (wilderAvgs prices period).2) := by
          apply div_pos (by norm_num)
          linarith
        have hfrac_le : 100 / (1 + (wilderAvgs prices period).1 / (wilderAvgs prices period).2) ≤ 100 :=
          div_le_self (by norm_num) (by linarith)
        constructor <;> linarith
  refine ⟨hbounds, ?_, ?_⟩
  · intro hlt
    unfold calculateRSI
    rw [if_pos hlt]
  · intro hge
    refine ⟨havg.1, havg.2, ?_, ?_⟩
    · intro hz
      unfold calculateRSI
      rw [if_neg hge]
      simp [hz]
    · intro hz
      unfold calculateRSI
      rw [if_neg hge]
      simp only []
      rw [if_neg hz]

/-- Witness for C2 at the strictly increasing series `[1, 2]` with period 1
(average loss is 0, so the oscillator is exactly 100 and lies in `[0, 100]`). -/
theorem calculateRSI_bounds_witness :
    1 ≤ 1 ∧ (0 ≤ calculateRSI [1, 2] 1 ∧ calculateRSI [1, 2] 1 ≤ 100) :=
  ⟨by decide, (calculateRSI_bounds [1, 2] 1 (by decide)).1⟩

end SignalEngine

namespace SignalEngine

/-! ### Sub-score bounds and the composite score -/

theorem clamp_bounds (b x : ℤ) (hb : 0 ≤ b) :
    -b ≤ max (-b) (min b x) ∧ max (-b) (min b x) ≤ b := by
  omega

theorem scoreFibPosition_bounds (price : ℚ) (fib : FibLevels) :
    -25 ≤ scoreFibPosition price fib ∧ scoreFibPosition price fib ≤ 25 := by
  simp only [scoreFibPosition]
  split_ifs <;> norm_num

theorem scoreRSI_bounds (rsi : ℚ) : -20 ≤ scoreRSI rsi ∧ scoreRSI rsi ≤ 20 := by
  unfold scoreRSI
  split_ifs <;> norm_num

theorem scoreEMAAlignment_bounds (price ema9 ema21 ema50 ema200 : ℚ) :
    -20 ≤ scoreEMAAlignment price ema9 ema21 ema50 ema200 ∧
      scoreEMAAlignment price ema9 ema21 ema50 ema200 ≤ 20 := by
  simp only [scoreEMAAlignment]
  exact clamp_bounds 20 _ (by norm_num)

theorem scoreSRProximity_bounds (price : ℚ) (fibSupport fibResistance : Option ℚ) :
    -15 ≤ scoreSRProximity price fibSupport fibResistance ∧
      scoreSRProximity price fibSupport fibResistance ≤ 15 := by
  simp only [scoreSRProximity]
  split_ifs <;> decide

theorem scoreMACDMomentum_bounds (macdLine signalLine histogram : ℚ) :
    -15 ≤ scoreMACDMomentum macdLine signalLine histogram ∧
      scoreMACDMomentum macdLine signalLine histogram ≤ 15 := by
  simp only [scoreMACDMomentum]
  exact clamp_bounds 15 _ (by norm_num)

/-- C5.  For every input to `generateSignals`, every sub-score respects its
own bound (±25, ±20, ±20, ±15, ±15), so the sum of the five sub-scores lies
in `[-95, 95]` before clamping and the final clamp to `[-100, 100]` never
changes the total. -/
theorem total_score_bounds (prices : List ℚ) :
    (-25 ≤ fibScoreOf prices ∧ fibScoreOf prices ≤ 25) ∧
      (-20 ≤ rsiScoreOf prices ∧ rsiScoreOf prices ≤ 20) ∧
      (-20 ≤ emaScoreOf prices ∧ emaScoreOf prices ≤ 20) ∧
      (-15 ≤ srScoreOf prices ∧ srScoreOf prices ≤ 15) ∧
      (-15 ≤ macdScoreOf prices ∧ macdScoreOf prices ≤ 15) ∧
      (-95 ≤ totalScoreOf prices ∧ totalScoreOf prices ≤ 95) ∧
      clampedScoreOf prices = totalScoreOf prices := by
  have h1 := scoreFibPosition_bounds (currentPriceOf prices) (fibOf prices)
  have h2 := scoreRSI_bounds (rsiOf prices)
  have h3 := scoreEMAAlignment_bounds (currentPriceOf prices)
    (getLatestEMA prices 9) (getLatestEMA prices 21) (getLatestEMA prices 50)
    (getLatestEMA prices 200)
  have h4 := scoreSRProximity_bounds (currentPriceOf prices) (srOf prices).1
    (srOf prices).2
  have h5 := scoreMACDMomentum_bounds (macdOf prices).macdLine
    (macdOf prices).signalLine (macdOf prices).histogram
  have hf : fibScoreOf prices = scoreFibPosition (currentPriceOf prices) (fibOf prices) := rfl
  have hr : rsiScoreOf prices = scoreRSI (rsiOf prices) := rfl
  have he : emaScoreOf prices = scoreEMAAlignment (currentPriceOf prices)
      (getLatestEMA prices 9) (getLatestEMA prices 21) (getLatestEMA prices 50)
      (getLatestEMA prices 200) := rfl
  have hs : srScoreOf prices = scoreSRProximity (currentPriceOf prices)
      (srOf prices).1 (srOf prices).2 := rfl
  have hm : macdScoreOf prices = scoreMACDMomentum (macdOf prices).macdLine
      (macdOf prices).signalLine (macdOf prices).histogram := rfl
  have htot : totalScoreOf prices = fibScoreOf prices + rsiScoreOf prices +
      emaScoreOf prices + srScoreOf prices + macdScoreOf prices := rfl
  have hcl : clampedScoreOf prices = max (-100) (min 100 (totalScoreOf prices)) := rfl
  rw [hf, hr, he, hs, hm] at *
  refine ⟨h1, h2, h3, h4, h5, ?_, ?_⟩
  · rw [htot, hf, hr, he, hs, hm]
    omega
  · rw [hcl, htot, hf, hr, he, hs, hm]
    omega

/-- C1.  For every non-empty price series and as-of date, the result of
`generateSignals` has an (integer) `signal_score` in `[-100, 100]`, and
`signal_label` is computed from that score by the first-match threshold order
`≥ 50 → strong_buy; ≥ 20 → buy; ≤ -50 → strong_sell; ≤ -20 → sell; else
neutral`, hence is always one of the five labels. -/
theorem generateSignals_score_label (t d : String) (prices : List ℚ)
    (h : prices ≠ []) :
    (-100 ≤ (generateSignals t prices d).signal_score ∧
        (generateSignals t prices d).signal_score ≤ 100) ∧
      (generateSignals t prices d).signal_label =
        labelFromScore ((generateSignals t prices d).signal_score) ∧
      ((generateSignals t prices d).signal_label =
        (if 50 ≤ (generateSignals t prices d).signal_score then SignalLabel.strong_buy
         else if 20 ≤ (generateSignals t prices d).signal_score then SignalLabel.buy
         else if (generateSignals t prices d).signal_score ≤ -50 then SignalLabel.strong_sell
         else if (generateSignals t prices d).signal_score ≤ -20 then SignalLabel.sell
         else SignalLabel.neutral)) ∧
      ((generateSignals t prices d).signal_label = SignalLabel.strong_buy ∨
        (generateSignals t prices d).signal_label = SignalLabel.buy ∨
        (generateSignals t prices d).signal_label = SignalLabel.neutral ∨
        (generateSignals t prices d).signal_label = SignalLabel.sell ∨
        (generateSignals t prices d).signal_label = SignalLabel.strong_sell) := by
  have hscore : (generateSignals t prices d).signal_score = clampedScoreOf prices := rfl
  have hlabel : (generateSignals t prices d).signal_label =
      labelFromScore (clampedScoreOf prices) := rfl
  refine ⟨?_, ?_, ?_, ?_⟩
  · rw [hscore]
    unfold clampedScoreOf
    omega
  · rw [hscore, hlabel]
  · rw [hscore, hlabel]
    unfold labelFromScore
    rfl
  · rw [hlabel]
    unfold labelFromScore
    split_ifs <;> tauto

/-- Witness for C1 at the one-element series `[42]`. -/
theorem generateSignals_score_label_witness :
    (-100 ≤ (generateSignals "T" [42] "D").signal_score ∧
        (generateSignals "T" [42] "D").signal_score ≤ 100) ∧
      (generateSignals "T" [42] "D").signal_label =
        labelFromScore ((generateSignals "T" [42] "D").signal_score) :=
  ⟨(generateSignals_score_label "T" "D" [42] (by decide)).1,
    (generateSignals_score_label "T" "D" [42] (by decide)).2.1⟩

end SignalEngine

namespace SignalEngine

/-! ### Nearest levels: the falsy-zero defect and the amended statement -/

/-- C4 counterexample.  With current price 0 and a retracement record whose
`low` is 0 (candidates `[0, 1, 2, 3, 4, 5, 6]`), the minimum qualifying
resistance candidate is 0, but `findNearestFibLevels` returns resistance
`some 1`: after storing 0 the JS test `!resistance` treats the stored 0 as
unset and overwrites it with the next (larger) level. -/
theorem findNearestFibLevels_counterexample :
    (findNearestFibLevels 0 ⟨6, 0, 5, 4, 3, 2, 1⟩).2 = some 1 ∧
      specNearestResistance 0 ⟨6, 0, 5, 4, 3, 2, 1⟩ = some 0 := by
  constructor
  · rfl
  · rfl

/-- C4 (amended).  Provided no candidate level equals 0 (the only value the
JS truthiness test confuses with `null`), `findNearestFibLevels` returns
exactly the nearest levels of the spec: the maximum candidate `≤ currentPrice` as
support and the minimum candidate `≥ currentPrice` as resistance, `none`
when no candidate qualifies; a candidate equal to the current price
qualifies as both. -/
theorem findNearestFibLevels_amended (currentPrice : ℚ) (fib : FibLevels)
    (h : ∀ l ∈ fibCandidates fib, l ≠ 0) :
    findNearestFibLevels currentPrice fib =
      (specNearestSupport currentPrice fib, specNearestResistance currentPrice fib) :=
  findNearestFibLevels_eq_spec currentPrice fib h

/-- Witness for the amended C4 at price 3 over candidates `[1, 1, 2, 3, 4, 5, 6]`
(support and resistance both 3). -/
theorem findNearestFibLevels_amended_witness :
    findNearestFibLevels 3 ⟨6, 1, 5, 4, 3, 2, 1⟩ =
        (specNearestSupport 3 ⟨6, 1, 5, 4, 3, 2, 1⟩,
          specNearestResistance 3 ⟨6, 1, 5, 4, 3, 2, 1⟩) ∧
      findNearestFibLevels 3 ⟨6, 1, 5, 4, 3, 2, 1⟩ = (some 3, some 3) :=
  ⟨findNearestFibLevels_amended 3 ⟨6, 1, 5, 4, 3, 2, 1⟩ (by decide), by rfl⟩

/-! ### Rounding of the result fields -/

/-- Predicate: `x` is a value with at most `n` decimal places. -/
def roundedTo (n : ℕ) (x : ℚ) : Prop := ∃ k : ℤ, x * 10 ^ n = (k : ℚ)

theorem roundedTo_round2 (x : ℚ) : roundedTo 2 (round2 x) := by
  refine ⟨round (x * 100), ?_⟩
  unfold round2
  rw [show ((10 : ℚ) ^ 2) = 100 by norm_num,
    div_mul_cancel₀ _ (by norm_num : (100 : ℚ) ≠ 0)]

theorem roundedTo_round4 (x : ℚ) : roundedTo 4 (round4 x) := by
  refine ⟨round (x * 10000), ?_⟩
  unfold round4
  rw [show ((10 : ℚ) ^ 4) = 10000 by norm_num,
    div_mul_cancel₀ _ (by norm_num : (10000 : ℚ) ≠ 0)]

/-- C6 counterexample.  On the series `[1, 2]`, the reported
`fib_levels.level_236` is `1.764`, which has three decimal places and is not
equal to its own 2-decimal rounding — so the retracement levels (and likewise
the nearest support/resistance) are **not** rounded before being handed to
the caller. -/
theorem generateSignals_rounding_counterexample :
    (generateSignals "T" [1, 2] "D").fib_levels.level_236 = 441 / 250 ∧
      round2 ((generateSignals "T" [1, 2] "D").fib_levels.level_236) = 44 / 25 ∧
      (441 / 250 : ℚ) ≠ 44 / 25 := by
  have hv : (generateSignals "T" [1, 2] "D").fib_levels.level_236 = 441 / 250 := by
    show (fibOf [1, 2]).level_236 = 441 / 250
    norm_num [fibOf, calculateFibLevels, listMax, listMin, max_def, min_def]
  refine ⟨hv, ?_, by norm_num⟩
  rw [hv]
  unfold round2
  have hr : round ((441 : ℚ) / 250 * 100) = 176 := by
    rw [round_eq, Int.floor_eq_iff] <;> norm_num
  rw [hr]
  norm_num

/-- C6 (amended).  The oscillator and moving-average fields of the result are
rounded to 2 decimal places and the three convergence fields to 4, but
`fib_levels` and the nearest support/resistance are passed through
unrounded. -/
theorem generateSignals_fields_rounded (t d : String) (prices : List ℚ) :
    roundedTo 2 (generateSignals t prices d).rsi_14 ∧
      roundedTo 2 (generateSignals t prices d).ema_9 ∧
      roundedTo 2 (generateSignals t prices d).ema_21 ∧
      roundedTo 2 (generateSignals t prices d).ema_50 ∧
      roundedTo 2 (generateSignals t prices d).ema_200 ∧
      roundedTo 4 (generateSignals t prices d).macd_line ∧
      roundedTo 4 (generateSignals t prices d).macd_signal ∧
      roundedTo 4 (generateSignals t prices d).macd_histogram ∧
      (generateSignals t prices d).fib_levels = fibOf prices ∧
      (generateSignals t prices d).nearest_fib_support = (srOf prices).1 ∧
      (generateSignals t prices d).nearest_fib_resistance = (srOf prices).2 :=
  ⟨roundedTo_round2 _, roundedTo_round2 _, roundedTo_round2 _, roundedTo_round2 _,
    roundedTo_round2 _, roundedTo_round4 _, roundedTo_round4 _, roundedTo_round4 _,
    rfl, rfl, rfl⟩

end SignalEngine

namespace SignalEngine

/-! ### Non-null support and resistance for positive series -/

theorem max?_isSome_of_mem (l : List ℚ) (x : ℚ) (hx : x ∈ l) :
    l.max?.isSome = true := by
  cases l with
  | nil => cases hx
  | cons y ys => rfl

theorem min?_isSome_of_mem (l : List ℚ) (x : ℚ) (hx : x ∈ l) :
    l.min?.isSome = true := by
  cases l with
  | nil => cases hx
  | cons y ys => rfl

/-- C9.  For every non-empty series of strictly positive prices, the current
price (the last element of the series) lies between the low and the high of
the trailing lookback window, so `generateSignals` returns non-null nearest
support and resistance. -/
theorem generateSignals_sr_non_null (t d : String) (prices : List ℚ)
    (h : prices ≠ []) (hpos : ∀ p ∈ prices, 0 < p) :
    (fibOf prices).low ≤ currentPriceOf prices ∧
      currentPriceOf prices ≤ (fibOf prices).high ∧
      (generateSignals t prices d).nearest_fib_support.isSome = true ∧
      (generateSignals t prices d).nearest_fib_resistance.isSome = true := by
  have hn : 0 < prices.length := List.length_pos.mpr h
  have hw : prices.drop (prices.length - 60) ≠ [] :=
    window_ne_nil prices 60 h (by norm_num)
  have hglw : (prices.drop (prices.length - 60)).getLast? = prices.getLast? :=
    getLast?_drop prices (prices.length - 60) (by omega)
  have hcpw : currentPriceOf prices ∈ prices.drop (prices.length - 60) := by
    unfold currentPriceOf
    rw [← hglw]
    exact getLast?_getD_mem _ hw
  have hlow : (fibOf prices).low = listMin (prices.drop (prices.length - 60)) := rfl
  have hhigh : (fibOf prices).high = listMax (prices.drop (prices.length - 60)) := rfl
  have hlowcp : (fibOf prices).low ≤ currentPriceOf prices := by
    rw [hlow]
    exact listMin_le _ _ hcpw
  have hcphigh : currentPriceOf prices ≤ (fibOf prices).high := by
    rw [hhigh]
    exact le_listMax _ _ hcpw
  have hlowpos : 0 < (fibOf prices).low := by
    rw [hlow]
    exact hpos _ (List.mem_of_mem_drop (listMin_mem _ hw))
  have hlh : (fibOf prices).low ≤ (fibOf prices).high := le_trans hlowcp hcphigh
  have hr : (0:ℚ) ≤ (fibOf prices).high - (fibOf prices).low := sub_nonneg.mpr hlh
  have hlevel : ∀ c : ℚ, 0 ≤ c → c ≤ 1 →
      0 < (fibOf prices).high - ((fibOf prices).high - (fibOf prices).low) * c := by
    intro c hc0 hc1
    have := mul_le_of_le_one_right hr hc1
    linarith
  have h236 : (fibOf prices).level_236 =
      (fibOf prices).high - ((fibOf prices).high - (fibOf prices).low) * 0.236 := rfl
  have h382 : (fibOf prices).level_382 =
      (fibOf prices).high - ((fibOf prices).high - (fibOf prices).low) * 0.382 := rfl
  have h500 : (fibOf prices).level_500 =
      (fibOf prices).high - ((fibOf prices).high - (fibOf prices).low) * 0.5 := rfl
  have h618 : (fibOf prices).level_618 =
      (fibOf prices).high - ((fibOf prices).high - (fibOf prices).low) * 0.618 := rfl
  have h786 : (fibOf prices).level_786 =
      (fibOf prices).high - ((fibOf prices).high - (fibOf prices).low) * 0.786 := rfl
  have hnz : ∀ l ∈ fibCandidates (fibOf prices), l ≠ 0 := by
    intro l hl
    simp only [fibCandidates, List.mem_cons, List.not_mem_nil, or_false] at hl
    rcases hl with rfl | rfl | rfl | rfl | rfl | rfl | rfl
    · exact ne_of_gt hlowpos
    · rw [h786]
      exact ne_of_gt (hlevel 0.786 (by norm_num) (by norm_num))
    · rw [h618]
      exact ne_of_gt (hlevel 0.618 (by norm_num) (by norm_num))
    · rw [h500]
      exact ne_of_gt (hlevel 0.5 (by norm_num) (by norm_num))
    · rw [h382]
      exact ne_of_gt (hlevel 0.382 (by norm_num) (by norm_num))
    · rw [h236]
      exact ne_of_gt (hlevel 0.236 (by norm_num) (by norm_num))
    · exact ne_of_gt (lt_of_lt_of_le hlowpos hlh)
  have hsp : (generateSignals t prices d).nearest_fib_support =
      (findNearestFibLevels (currentPriceOf prices) (fibOf prices)).1 := rfl
  have hrp : (generateSignals t prices d).nearest_fib_resistance =
      (findNearestFibLevels (currentPriceOf prices) (fibOf prices)).2 := rfl
  have hspec := findNearestFibLevels_eq_spec (currentPriceOf prices) (fibOf prices) hnz
  refine ⟨hlowcp, hcphigh, ?_, ?_⟩
  · rw [hsp, hspec]
    have hmem : (fibOf prices).low ∈
        (fibCandidates (fibOf prices)).filter
          (fun l => decide (l ≤ currentPriceOf prices)) := by
      apply List.mem_filter.mpr
      exact ⟨by simp [fibCandidates], by simpa using hlowcp⟩
    exact max?_isSome_of_mem _ _ hmem
  · rw [hrp, hspec]
    have hmem : (fibOf prices).high ∈
        (fibCandidates (fibOf prices)).filter
          (fun l => decide (currentPriceOf prices ≤ l)) := by
      apply List.mem_filter.mpr
      exact ⟨by simp [fibCandidates], by simpa using hcphigh⟩
    exact min?_isSome_of_mem _ _ hmem

/-- Witness for C9 at the one-element positive series `[1]`. -/
theorem generateSignals_sr_non_null_witness :
    (generateSignals "T" [1] "D").nearest_fib_support.isSome = true ∧
      (generateSignals "T" [1] "D").nearest_fib_resistance.isSome = true :=
  ⟨(generateSignals_sr_non_null "T" "D" [1] (by decide) (by decide)).2.2.1,
    (generateSignals_sr_non_null "T" "D" [1] (by decide) (by decide)).2.2.2⟩

/-! ### Short series fall back to the last closing price -/

theorem getLatestEMA_short (prices : List ℚ) (period : ℕ)
    (hlen : prices.length < period) :
    getLatestEMA prices period = currentPriceOf prices := by
  unfold getLatestEMA calculateEMA currentPriceOf
  rw [if_pos hlen]
  rfl

/-- C10.  Whenever the price series is shorter than a moving-average period
(so the EMA sequence is empty), `generateSignals` reports the last closing
price itself (rounded to 2 decimal places) as that period's moving-average
field, and the same substituted values feed the alignment sub-score. -/
theorem generateSignals_short_series_ema (t d : String) (prices : List ℚ)
    (h : prices ≠ []) :
    (prices.length < 9 → getLatestEMA prices 9 = currentPriceOf prices) ∧
      (prices.length < 21 → getLatestEMA prices 21 = currentPriceOf prices) ∧
      (prices.length < 50 → getLatestEMA prices 50 = currentPriceOf prices) ∧
      (prices.length < 200 → getLatestEMA prices 200 = currentPriceOf prices) ∧
      (prices.length < 9 →
        (generateSignals t prices d).ema_9 = round2 (currentPriceOf prices)) ∧
      (prices.length < 21 →
        (generateSignals t prices d).ema_21 = round2 (currentPriceOf prices)) ∧
      (prices.length < 50 →
        (generateSignals t prices d).ema_50 = round2 (currentPriceOf prices)) ∧
      (prices.length < 200 →
        (generateSignals t prices d).ema_200 = round2 (currentPriceOf prices)) ∧
      emaScoreOf prices =
        scoreEMAAlignment (currentPriceOf prices) (getLatestEMA prices 9)
          (getLatestEMA prices 21) (getLatestEMA prices 50)
          (getLatestEMA prices 200) := by
  refine ⟨fun h9 => getLatestEMA_short prices 9 h9,
    fun h21 => getLatestEMA_short prices 21 h21,
    fun h50 => getLatestEMA_short prices 50 h50,
    fun h200 => getLatestEMA_short prices 200 h200, ?_, ?_, ?_, ?_, rfl⟩
  · intro h9
    show round2 (getLatestEMA prices 9) = round2 (currentPriceOf prices)
    rw [getLatestEMA_short prices 9 h9]
  · intro h21
    show round2 (getLatestEMA prices 21) = round2 (currentPriceOf prices)
    rw [getLatestEMA_short prices 21 h21]
  · intro h50
    show round2 (getLatestEMA prices 50) = round2 (currentPriceOf prices)
    rw [getLatestEMA_short prices 50 h50]
  · intro h200
    show round2 (getLatestEMA prices 200) = round2 (currentPriceOf prices)
    rw [getLatestEMA_short prices 200 h200]

/-- Witness for C10 at the two-element series `[1, 2]` (length 2 < 9). -/
theorem generateSignals_short_series_ema_witness :
    ([1, 2] : List ℚ).length < 9 ∧
      (generateSignals "T" [1, 2] "D").ema_9 = round2 (currentPriceOf [1, 2]) :=
  ⟨by decide,
    (generateSignals_short_series_ema "T" "D" [1, 2] (by decide)).2.2.2.2.1 (by decide)⟩

end SignalEngine
